import Mathlib

/-!
Verification of the GitHub-connection provisioning module (Developer Connect
based App Hosting setup flow).

The TypeScript source is shallowly embedded:
  * strings are `String`, lists are `List`;
  * JavaScript regular-expression operations used by the source
    (`CONNECTION_NAME_REGEX.exec`, `APPHOSTING_CONN_PATTERN.test`,
    the clone-URI slug regex, `String.prototype.replace` with a string
    pattern) are modelled character-by-character, including JS semantics for
    the dot (any character except a line terminator), leftmost-match
    preference, and greedy capture;
  * asynchronous remote calls (`devConnect.*`, `poller.pollOperation`) are
    modelled by an explicit environment `Env` of response functions, and every
    embedded operation additionally returns the list of calls it performed
    (`CallEvent`), so that "exactly one create call occurs" style properties
    are provable;
  * thrown errors are modelled with `Except DCError`; the `while` loop of
    `getOrCreateOauthConnection` is given explicit fuel, with fuel exhaustion
    (`none`) standing for non-termination.
-/

set_option autoImplicit false

namespace GithubConnections

/-- JS dot (without the `s` flag) matches every character except the four
line terminators. -/
def jsDot (c : Char) : Bool :=
  !(c = '\n' || c = '\r' || c = Char.ofNat 0x2028 || c = Char.ofNat 0x2029)

/-- Whether `pat` is a prefix of `cs`. -/
def listStartsWith (pat cs : List Char) : Bool :=
  match pat, cs with
  | [], _ => true
  | _ :: _, [] => false
  | p :: ps, c :: rest => p == c && listStartsWith ps rest

/-- Whether `pat` occurs (as a contiguous substring) anywhere in `cs`. -/
def occursIn (pat : List Char) : List Char → Bool
  | [] => listStartsWith pat []
  | c :: rest => listStartsWith pat (c :: rest) || occursIn pat rest

/-- Split a character list at every `'/'` (like splitting a resource name
into its path segments); always returns at least one segment. -/
def splitSlash : List Char → List (List Char)
  | [] => [[]]
  | c :: rest =>
    if c = '/' then [] :: splitSlash rest
    else
      match splitSlash rest with
      | [] => [[c]]
      | s :: ss => (c :: s) :: ss

/-- Rejoin segments with `'/'`; inverse of `splitSlash`. -/
def joinSlash : List (List Char) → List Char
  | [] => []
  | [s] => s
  | s :: ss => s ++ '/' :: joinSlash ss

/-- JS `String.prototype.replace` with a string pattern: replace the first
occurrence only (the original list when there is no occurrence). -/
def replaceFirstChars (pat rep : List Char) : List Char → List Char
  | [] => []
  | c :: rest =>
    if listStartsWith pat (c :: rest) then rep ++ (c :: rest).drop pat.length
    else c :: replaceFirstChars pat rep rest

/-- JS `s.replace(pat, rep)` for string `pat` (first occurrence only). -/
def jsReplaceFirst (s pat rep : String) : String :=
  String.mk (replaceFirstChars pat.data rep.data s.data)

/-- Structured parts of a connection resource name
(`interface ConnectionNameParts`). -/
structure ConnectionNameParts where
  projectId : String
  location : String
  id : String
deriving DecidableEq

/-- Embedding of `CONNECTION_NAME_REGEX.exec` followed by the group
destructuring of `parseConnectionName`: the regex
is anchored on both sides and each of the three groups is one or more
non-slash characters, so a name parses exactly when it splits at slashes
into the six segments
`["projects", projectId, "locations", location, "connections", id]`
with the three variable segments nonempty. -/
def parseConnectionNameChars (cs : List Char) : Option ConnectionNameParts :=
  match splitSlash cs with
  | [seg0, p, seg2, l, seg4, i] =>
    if seg0 = "projects".data ∧ seg2 = "locations".data ∧ seg4 = "connections".data
        ∧ p ≠ [] ∧ l ≠ [] ∧ i ≠ [] then
      some ⟨String.mk p, String.mk l, String.mk i⟩
    else none
  | _ => none

/-- Source `parseConnectionName`. -/
def parseConnectionName (name : String) : Option ConnectionNameParts :=
  parseConnectionNameChars name.data

/-- Canonical rendering of connection-name parts, used to state the
round-trip property of `parseConnectionName`. -/
def renderConnectionName (parts : ConnectionNameParts) : String :=
  "projects/" ++ parts.projectId ++ "/locations/" ++ parts.location ++
    "/connections/" ++ parts.id

/-- Well-formedness of connection-name parts: each segment nonempty and
slash-free (what the regex `[^\/]+` groups guarantee). -/
def WfParts (parts : ConnectionNameParts) : Prop :=
  parts.projectId.data ≠ [] ∧ parts.location.data ≠ [] ∧ parts.id.data ≠ [] ∧
  '/' ∉ parts.projectId.data ∧ '/' ∉ parts.location.data ∧ '/' ∉ parts.id.data

instance (parts : ConnectionNameParts) : Decidable (WfParts parts) := by
  unfold WfParts; infer_instance

/-- The literal that the eligibility regex `APPHOSTING_CONN_PATTERN`
requires: a slash followed by the generated-id marker. -/
def connMarker : List Char := "/apphosting-github-conn-".data

/-- Embedding of `APPHOSTING_CONN_PATTERN.test name` for the JS regex
matching one-or-more dots, the literal `connMarker`, one-or-more dots, then
end of input: true exactly when the marker occurs at some position `i ≥ 1`
with a non-line-terminator character immediately before it and a nonempty
line-terminator-free suffix after it reaching the end of the string. -/
def apphostingConnTest (name : String) : Bool :=
  (List.range name.data.length).any fun i =>
    i != 0 &&
    jsDot (name.data.getD (i - 1) ' ') &&
    listStartsWith connMarker (name.data.drop i) &&
    !(name.data.drop (i + connMarker.length)).isEmpty &&
    (name.data.drop (i + connMarker.length)).all jsDot

/-- Fixed id of the sentinel OAuth connection
(`APPHOSTING_OAUTH_CONN_NAME`). -/
def apphostingOauthConnName : String := "apphosting-github-oauth"

/-- Whether the literal `lit` occurs at position `i` of `cs` (entirely
within bounds). -/
def litAt (cs : List Char) (i : Nat) (lit : List Char) : Bool :=
  i + lit.length ≤ cs.length && listStartsWith lit (cs.drop i)

/-- Whether position `i` of `cs` holds a character matched by the JS dot. -/
def anyCharAt (cs : List Char) (i : Nat) : Bool :=
  i < cs.length && jsDot (cs.getD i ' ')

/-- Head of the clone-URI slug regex: the literal `github`, any character
(the unescaped dot of the source pattern), then the literal `com/` —
11 characters in total before the capture group starts. -/
def slugHeadAt (cs : List Char) (i : Nat) : Bool :=
  litAt cs i "github".data && anyCharAt cs (i + 6) && litAt cs (i + 7) "com/".data

/-- Whether, for a slug-regex match whose head starts at `i`, the capture
group can be `k` characters long: `k ≥ 1` line-terminator-free characters,
then any character (the unescaped dot before `git`) and the literal
`git`. -/
def slugCaptureOk (cs : List Char) (i k : Nat) : Bool :=
  1 ≤ k && i + 11 + k ≤ cs.length && ((cs.drop (i + 11)).take k).all jsDot &&
  anyCharAt cs (i + 11 + k) && litAt cs (i + 12 + k) "git".data

/-- Largest `k ≤ n` satisfying `p` (greedy backtracking search). -/
def searchDown (p : Nat → Bool) : Nat → Option Nat
  | 0 => none
  | k + 1 => if p (k + 1) then some (k + 1) else searchDown p k

/-- Smallest index `≥ start` (among the next `fuel` indices) satisfying `p`
(leftmost-match search). -/
def searchFirst (p : Nat → Bool) : Nat → Nat → Option Nat
  | _, 0 => none
  | start, fuel + 1 => if p start then some start else searchFirst p (start + 1) fuel

/-- Greedy capture length for a slug-regex match whose head starts at `i`. -/
def bestCapture (cs : List Char) (i : Nat) : Option Nat :=
  searchDown (fun k => slugCaptureOk cs i k) cs.length

/-- Whether a full slug-regex match starts at position `i`. -/
def slugMatchAt (cs : List Char) (i : Nat) : Bool :=
  slugHeadAt cs i && (bestCapture cs i).isSome

/-- Source `extractRepoSlugFromUri`: run the JS regex
(`github`, dot, `com/`, greedy nonempty capture, dot, `git`, unanchored)
against `cloneUri` and return the capture of the leftmost match, or `none`
when there is no match. -/
def extractRepoSlugFromUri (cloneUri : String) : Option String :=
  match searchFirst (fun i => slugMatchAt cloneUri.data i) 0 (cloneUri.data.length + 1) with
  | none => none
  | some i =>
    match bestCapture cloneUri.data i with
    | none => none
    | some k => some (String.mk ((cloneUri.data.drop (i + 11)).take k))

/-- Source `generateRepositoryId`: the extracted slug with every `'/'`
replaced by `'-'` (JS `replaceAll` on single characters). -/
def generateRepositoryId (remoteUri : String) : Option String :=
  (extractRepoSlugFromUri remoteUri).map fun s =>
    String.mk (s.data.map fun c => if c = '/' then '-' else c)

/-- Source `generateConnectionId`, as a function of the random suffix
(`Math.random().toString(36).slice(6)`), which the embedding leaves
abstract as an arbitrary string of base-36 digit characters, possibly
empty. -/
def generateConnectionId (randomHash : String) : String :=
  "apphosting-github-conn-" ++ randomHash

/-- Installation state carried by a connection. -/
structure InstallationState where
  stage : String
  actionUri : String
deriving DecidableEq

/-- GitHub OAuth/app configuration of a connection. -/
structure GitHubConfig where
  authorizerCredential : Option String
  appInstallationId : Option String
deriving DecidableEq

/-- Developer Connect connection resource. -/
structure Connection where
  name : String
  installationState : InstallationState
  disabled : Bool
  githubConfig : Option GitHubConfig
deriving DecidableEq

/-- Developer Connect git-repository-link resource. -/
structure GitRepositoryLink where
  name : String
  cloneUri : String
deriving DecidableEq

/-- Long-running operation handle returned by create calls. -/
structure Operation where
  name : String
deriving DecidableEq

/-- Error value thrown by a remote call; `status` models the HTTP status
field the source inspects (`none` when the thrown value has no status). -/
structure DCError where
  status : Option Int
  message : String
deriving DecidableEq

/-- Remote calls and human interactions a run can perform, recorded in
order. -/
inductive CallEvent where
  | getConn (projectId location connectionId : String)
  | createConn (projectId location connectionId : String) (githubConfig : Option GitHubConfig)
  | pollOp (operationResourceName : String)
  | getRepoLink (projectId location connectionId repositoryId : String)
  | createRepoLink (projectId location connectionId repositoryId cloneUri : String)
  | openBrowser (uri : String)
  | openBrowserPopup (uri : String)
  | prompt
deriving DecidableEq

/-- Environment of remote responses: one pure response function per remote
API used by the module (`devConnect.*` and the operation poller). -/
structure Env where
  getConnection : String → String → String → Except DCError Connection
  createConnection : String → String → String → Option GitHubConfig → Except DCError Operation
  pollConnection : String → Except DCError Connection
  getGitRepositoryLink : String → String → String → String → Except DCError GitRepositoryLink
  createGitRepositoryLink : String → String → String → String → String → Except DCError Operation
  pollRepoLink : String → Except DCError GitRepositoryLink
  listAllLinkableGitRepositories : String → String → String → List GitRepositoryLink

/-- Source `createConnection` (the local wrapper): create the connection
resource, then poll the returned long-running operation. -/
def createConnection (env : Env) (projectId location connectionId : String)
    (githubConfig : Option GitHubConfig) : Except DCError Connection × List CallEvent :=
  match env.createConnection projectId location connectionId githubConfig with
  | .error e => (.error e, [.createConn projectId location connectionId githubConfig])
  | .ok op =>
    (env.pollConnection op.name,
     [.createConn projectId location connectionId githubConfig, .pollOp op.name])

/-- Source `getOrCreateConnection`: fetch; on a status-404 failure create
and poll; re-throw any other failure unchanged. -/
def getOrCreateConnection (env : Env) (projectId location connectionId : String)
    (githubConfig : Option GitHubConfig) : Except DCError Connection × List CallEvent :=
  match env.getConnection projectId location connectionId with
  | .ok conn => (.ok conn, [.getConn projectId location connectionId])
  | .error err =>
    if err.status = some 404 then
      let r := createConnection env projectId location connectionId githubConfig
      (r.1, .getConn projectId location connectionId :: r.2)
    else
      (.error err, [.getConn projectId location connectionId])

/-- Source `getOrCreateRepository`: derive the repository id from the clone
URI (failing before any remote call when underivable); fetch; on a
status-404 failure create and poll; re-throw any other failure
unchanged. -/
def getOrCreateRepository (env : Env) (projectId location connectionId cloneUri : String) :
    Except DCError GitRepositoryLink × List CallEvent :=
  match generateRepositoryId cloneUri with
  | none =>
    (.error ⟨none, "Failed to generate repositoryId for URI \"" ++ cloneUri ++ "\"."⟩, [])
  | some repositoryId =>
    match env.getGitRepositoryLink projectId location connectionId repositoryId with
    | .ok repo => (.ok repo, [.getRepoLink projectId location connectionId repositoryId])
    | .error err =>
      if err.status = some 404 then
        match env.createGitRepositoryLink projectId location connectionId repositoryId cloneUri with
        | .error e =>
          (.error e,
           [.getRepoLink projectId location connectionId repositoryId,
            .createRepoLink projectId location connectionId repositoryId cloneUri])
        | .ok op =>
          (env.pollRepoLink op.name,
           [.getRepoLink projectId location connectionId repositoryId,
            .createRepoLink projectId location connectionId repositoryId cloneUri,
            .pollOp op.name])
      else
        (.error err, [.getRepoLink projectId location connectionId repositoryId])

/-- Source `ensureFullyInstalledConnection`. The source is a `while` loop
whose body unconditionally returns, so it is an `if`: when the stage is not
`COMPLETE`, rewrite the action URI (`install_v2` to `direct_install_v2`,
first occurrence, as JS `replace` does), open it, prompt, and return one
fresh fetch of the connection; otherwise return the input unchanged. -/
def ensureFullyInstalledConnection (env : Env) (projectId location connectionId : String)
    (oauthConn : Connection) : Except DCError Connection × List CallEvent :=
  if oauthConn.installationState.stage ≠ "COMPLETE" then
    (env.getConnection projectId location connectionId,
     [.openBrowser (jsReplaceFirst oauthConn.installationState.actionUri
        "install_v2" "direct_install_v2"),
      .prompt,
      .getConn projectId location connectionId])
  else
    (.ok oauthConn, [])

/-- Body of the `while` loop of `getOrCreateOauthConnection`: while the
stage is `PENDING_USER_OAUTH`, open the action URI in a popup, prompt,
re-parse the connection name (the source asserts the parse succeeds with
`!`; a failed parse is a thrown TypeError) and re-fetch. `refetch` gives
the response of the `k`-th re-fetch; `fuel` bounds the number of
iterations, `none` standing for running out of fuel (non-termination
within `fuel`). -/
def oauthConnectionLoop (refetch : Nat → String → String → String → Except DCError Connection) :
    Nat → Nat → Connection → Option (Except DCError Connection × List CallEvent)
  | _, 0, _ => none
  | k, fuel + 1, conn =>
    if conn.installationState.stage = "PENDING_USER_OAUTH" then
      match parseConnectionName conn.name with
      | none =>
        some (.error ⟨none, "TypeError: connection name did not parse"⟩,
          [.openBrowserPopup conn.installationState.actionUri, .prompt])
      | some parts =>
        match refetch k parts.projectId parts.location parts.id with
        | .error e =>
          some (.error e,
            [.openBrowserPopup conn.installationState.actionUri, .prompt,
             .getConn parts.projectId parts.location parts.id])
        | .ok conn' =>
          match oauthConnectionLoop refetch (k + 1) fuel conn' with
          | none => none
          | some (r, t) =>
            some (r,
              .openBrowserPopup conn.installationState.actionUri :: .prompt ::
                .getConn parts.projectId parts.location parts.id :: t)
    else
      some (.ok conn, [])

/-- Source `getOrCreateOauthConnection`: get-or-create the sentinel OAuth
connection (fixed id, no config), then run the OAuth-completion loop. -/
def getOrCreateOauthConnection (env : Env)
    (refetch : Nat → String → String → String → Except DCError Connection)
    (fuel : Nat) (projectId location : String) :
    Option (Except DCError Connection × List CallEvent) :=
  let r := getOrCreateConnection env projectId location apphostingOauthConnName none
  match r.1 with
  | .error e => some (.error e, r.2)
  | .ok conn =>
    match oauthConnectionLoop refetch 0 fuel conn with
    | none => none
    | some (r', t') => some (r', r.2 ++ t')

/-- Source `listAppHostingConnections`, as a function of the full
connection list returned by `devConnect.listAllConnections(projectId, "-")`:
keep the connections whose name passes the eligibility pattern, whose stage
is `COMPLETE`, and which are not disabled. -/
def listAppHostingConnections (conns : List Connection) : List Connection :=
  conns.filter fun conn =>
    apphostingConnTest conn.name && conn.installationState.stage == "COMPLETE" &&
      !conn.disabled

/-- JS object property write `m[k] = v` for string keys: updating an
existing key keeps its position, a new key is appended (insertion
order). -/
def objSet (m : List (String × Connection)) (k : String) (v : Connection) :
    List (String × Connection) :=
  if m.any (fun p => p.1 == k) then
    m.map fun p => if p.1 == k then (k, v) else p
  else
    m ++ [(k, v)]

/-- JS object property read `m[k]`. -/
def objGet (m : List (String × Connection)) (k : String) : Option Connection :=
  (m.find? fun p => p.1 == k).map fun p => p.2

/-- Loop of `fetchAllRepositories` over the connection list, threading the
`cloneUriToConnection` object; a connection whose name does not parse makes
the source's non-null assertion throw. -/
def fetchAllRepositoriesGo (env : Env) (projectId : String) :
    List Connection → List (String × Connection) →
      Except DCError (List (String × Connection))
  | [], acc => .ok acc
  | conn :: rest, acc =>
    match parseConnectionName conn.name with
    | none => .error ⟨none, "TypeError: connection name did not parse"⟩
    | some parts =>
      fetchAllRepositoriesGo env projectId rest
        ((env.listAllLinkableGitRepositories projectId parts.location parts.id).foldl
          (fun m repo => objSet m repo.cloneUri conn) acc)

/-- Source `fetchAllRepositories`: aggregate every connection's linkable
repositories into one clone-URI-to-connection object and return
`Object.keys` of it together with the object. -/
def fetchAllRepositories (env : Env) (projectId : String) (connections : List Connection) :
    Except DCError (List String × List (String × Connection)) :=
  (fetchAllRepositoriesGo env projectId connections []).map fun m =>
    (m.map (fun p => p.1), m)

/-- Whether connection `c` (with a parsing name) lists a repository with
clone URI `uri`; stated from the spec's description of the aggregation
("the last input connection that listed a repository with that clone
URI"). -/
def connListsUri (env : Env) (projectId : String) (c : Connection) (uri : String) : Bool :=
  match parseConnectionName c.name with
  | some parts =>
    (env.listAllLinkableGitRepositories projectId parts.location parts.id).any
      fun r => r.cloneUri == uri
  | none => false

/-- Modelled from the spec: the connection from the last input connection
(in input-list order) that listed a repository with clone URI `uri`. -/
def lastConnectionListing (env : Env) (projectId : String)
    (connections : List Connection) (uri : String) : Option Connection :=
  connections.reverse.find? fun c => connListsUri env projectId c uri

/-! ### Generic list lemmas -/

theorem listStartsWith_refl_append (pat rest : List Char) :
    listStartsWith pat (pat ++ rest) = true := by
  induction pat with
  | nil => rfl
  | cons p ps ih => simp [listStartsWith, ih]

theorem getD_append_length {α : Type} (l₁ : List α) (c : α) (l₂ : List α) (d : α) :
    (l₁ ++ c :: l₂).getD l₁.length d = c := by
  induction l₁ with
  | nil => rfl
  | cons a as ih => simpa using ih

theorem any_range_of {p : Nat → Bool} {i n : Nat} (hin : i < n) (hp : p i = true) :
    (List.range n).any p = true :=
  List.any_eq_true.mpr ⟨i, List.mem_range.mpr hin, hp⟩

theorem occursIn_of_startsWith_drop {pat cs : List Char} {i : Nat}
    (h : listStartsWith pat (cs.drop i) = true) : occursIn pat cs = true := by
  induction cs generalizing i with
  | nil => simpa [occursIn] using h
  | cons c rest ih =>
    cases i with
    | zero => simp only [List.drop_zero] at h; simp [occursIn, h]
    | succ j =>
      have h' : listStartsWith pat (rest.drop j) = true := h
      simp [occursIn, ih h']

/-! ### Lemmas about `splitSlash` and `joinSlash` -/

theorem splitSlash_ne_nil (cs : List Char) : splitSlash cs ≠ [] := by
  induction cs with
  | nil => simp [splitSlash]
  | cons c rest ih =>
    simp only [splitSlash]
    split
    · simp
    · cases h : splitSlash rest with
      | nil => simp
      | cons s ss => simp

theorem splitSlash_no_slash {cs : List Char} :
    ∀ s ∈ splitSlash cs, '/' ∉ s := by
  induction cs with
  | nil => intro s hs; simp [splitSlash] at hs; simp [hs]
  | cons c rest ih =>
    intro s hs
    simp only [splitSlash] at hs
    by_cases hc : c = '/'
    · simp [hc] at hs
      rcases hs with h | h
      · simp [h]
      · exact ih s h
    · simp [hc] at hs
      rcases h : splitSlash rest with _ | ⟨t, ts⟩
      · exact absurd h (splitSlash_ne_nil rest)
      · rw [h] at hs
        simp at hs
        rcases hs with h1 | h2
        · subst h1
          intro hmem
          rcases List.mem_cons.mp hmem with h' | h'
          · exact hc h'.symm
          · exact ih t (by simp [h]) h'
        · exact ih s (by simp [h, h2])

theorem joinSlash_splitSlash (cs : List Char) :
    joinSlash (splitSlash cs) = cs := by
  induction cs with
  | nil => simp [splitSlash, joinSlash]
  | cons c rest ih =>
    simp only [splitSlash]
    by_cases hc : c = '/'
    · subst hc
      simp only [if_pos rfl]
      rcases h : splitSlash rest with _ | ⟨t, ts⟩
      · exact absurd h (splitSlash_ne_nil rest)
      · rw [h] at ih
        simp [joinSlash, ih]
    · simp only [if_neg hc]
      rcases h : splitSlash rest with _ | ⟨t, ts⟩
      · exact absurd h (splitSlash_ne_nil rest)
      · rw [h] at ih
        cases ts with
        | nil => simp_all [joinSlash]
        | cons t' ts' => simp_all [joinSlash]

theorem splitSlash_append {p : List Char} (hp : '/' ∉ p) (rest : List Char) :
    splitSlash (p ++ '/' :: rest) = p :: splitSlash rest := by
  induction p with
  | nil => simp [splitSlash]
  | cons c cs ih =>
    have hc : c ≠ '/' := fun h => hp (by simp [h])
    have hcs : '/' ∉ cs := fun h => hp (by simp [h])
    simp only [List.cons_append, splitSlash, if_neg hc, List.append_eq, ih hcs]

theorem splitSlash_of_no_slash {p : List Char} (hp : '/' ∉ p) :
    splitSlash p = [p] := by
  induction p with
  | nil => simp [splitSlash]
  | cons c cs ih =>
    have hc : c ≠ '/' := fun h => hp (by simp [h])
    have hcs : '/' ∉ cs := fun h => hp (by simp [h])
    simp only [splitSlash, if_neg hc, ih hcs]

/-! ### Characterization of `parseConnectionName` -/

theorem renderConnectionName_data (parts : ConnectionNameParts) :
    (renderConnectionName parts).data =
      "projects".data ++ '/' :: (parts.projectId.data ++ '/' ::
        ("locations".data ++ '/' :: (parts.location.data ++ '/' ::
          ("connections".data ++ '/' :: parts.id.data)))) := by
  have e1 : ("projects/" : String).data = "projects".data ++ ['/'] := rfl
  have e2 : ("/locations/" : String).data = '/' :: ("locations".data ++ ['/']) := rfl
  have e3 : ("/connections/" : String).data = '/' :: ("connections".data ++ ['/']) := rfl
  simp [renderConnectionName, String.data_append, e1, e2, e3]

theorem parseConnectionName_render {parts : ConnectionNameParts} (h : WfParts parts) :
    parseConnectionName (renderConnectionName parts) = some parts := by
  obtain ⟨h1, h2, h3, h4, h5, h6⟩ := h
  unfold parseConnectionName parseConnectionNameChars
  rw [renderConnectionName_data parts,
    splitSlash_append (by decide), splitSlash_append h4,
    splitSlash_append (by decide), splitSlash_append h5,
    splitSlash_append (by decide), splitSlash_of_no_slash h6]
  show (if "projects".data = "projects".data ∧ "locations".data = "locations".data ∧
      "connections".data = "connections".data ∧ parts.projectId.data ≠ [] ∧
      parts.location.data ≠ [] ∧ parts.id.data ≠ [] then
        some (⟨⟨parts.projectId.data⟩, ⟨parts.location.data⟩, ⟨parts.id.data⟩⟩ :
          ConnectionNameParts)
      else none) = some parts
  rw [if_pos ⟨rfl, rfl, rfl, h1, h2, h3⟩]

theorem parseConnectionName_sound {s : String} {parts : ConnectionNameParts}
    (h : parseConnectionName s = some parts) :
    WfParts parts ∧ s = renderConnectionName parts := by
  unfold parseConnectionName parseConnectionNameChars at h
  split at h
  case h_1 seg0 p seg2 l seg4 i heq =>
    split at h
    case isTrue hc =>
      obtain ⟨hc0, hc2, hc4, hp, hl, hi⟩ := hc
      have hmem : ∀ t ∈ [seg0, p, seg2, l, seg4, i], '/' ∉ t := by
        intro t ht; exact splitSlash_no_slash t (heq ▸ ht)
      injection h with h'
      subst h'
      constructor
      · exact ⟨hp, hl, hi, hmem p (by simp), hmem l (by simp), hmem i (by simp)⟩
      · apply String.ext
        have hjoin : s.data = joinSlash (splitSlash s.data) := (joinSlash_splitSlash s.data).symm
        rw [heq] at hjoin
        rw [hjoin, renderConnectionName_data]
        subst hc0 hc2 hc4
        simp [joinSlash]
    case isFalse => exact absurd h (by simp)
  case h_2 => exact absurd h (by simp)

/-- C9: `parseConnectionName` succeeds exactly on canonical names
`projects/P/locations/L/connections/C` with `P`, `L`, `C` nonempty and
slash-free, in which case it returns the three segments; every other
string (wrong prefixes, extra trailing segments such as
`.../connections/C/repositories/R`, empty segments) yields `none`, and the
function is total (it never throws). -/
theorem claim_C9 (s : String) (parts : ConnectionNameParts) :
    parseConnectionName s = some parts ↔
      (WfParts parts ∧ s = renderConnectionName parts) := by
  constructor
  · exact parseConnectionName_sound
  · rintro ⟨hwf, rfl⟩
    exact parseConnectionName_render hwf

/-- C9 witness: a concrete well-formed name parses to its parts, via the
characterization theorem; a concrete name with extra trailing segments
yields `none`. -/
theorem claim_C9_witness :
    parseConnectionName "projects/my-proj/locations/us-central1/connections/my-conn" =
      some ⟨"my-proj", "us-central1", "my-conn"⟩ ∧
    parseConnectionName "projects/p/locations/l/connections/c/repositories/r" = none :=
  ⟨(claim_C9 "projects/my-proj/locations/us-central1/connections/my-conn"
      ⟨"my-proj", "us-central1", "my-conn"⟩).mpr (by decide), by decide⟩

/-! ### Lemmas about marker occurrences in slash-separated names -/

theorem occursIn_no_slash {t : List Char} {s : List Char} (hs : '/' ∉ s) :
    occursIn ('/' :: t) s = false := by
  induction s with
  | nil => rfl
  | cons c rest ih =>
    have hc : '/' ≠ c := fun h => hs (List.mem_cons.mpr (Or.inl h))
    have hrest : '/' ∉ rest := fun h => hs (List.mem_cons.mpr (Or.inr h))
    simp [occursIn, listStartsWith, hc, ih hrest]

theorem startsWith_no_slash_append (t : List Char) :
    '/' ∉ t → ∀ (s r : List Char),
      listStartsWith t (s ++ '/' :: r) = listStartsWith t s := by
  induction t with
  | nil => intro _ s r; rfl
  | cons a ts ih =>
    intro ht s r
    have ha : a ≠ '/' := fun h => ht (by simp [h])
    have hts : '/' ∉ ts := fun h => ht (by simp [h])
    cases s with
    | nil => simp [listStartsWith, ha]
    | cons c s' => simp [listStartsWith, ih hts s' r]

theorem occursIn_seg_append {t : List Char} :
    ∀ (s : List Char), '/' ∉ s → ∀ (r : List Char),
      occursIn ('/' :: t) (s ++ '/' :: r) =
        (listStartsWith t r || occursIn ('/' :: t) r) := by
  intro s
  induction s with
  | nil => intro _ r; simp [occursIn, listStartsWith]
  | cons c s' ih =>
    intro hs r
    have hc : '/' ≠ c := fun h => hs (List.mem_cons.mpr (Or.inl h))
    have hs' : '/' ∉ s' := fun h => hs (List.mem_cons.mpr (Or.inr h))
    simp [occursIn, listStartsWith, hc, ih hs' r]

theorem occursIn_joinSlash {t : List Char} (ht : '/' ∉ t) :
    ∀ (ss : List (List Char)), (∀ s ∈ ss, '/' ∉ s) →
      occursIn ('/' :: t) (joinSlash ss) =
        ss.tail.any fun s => listStartsWith t s := by
  intro ss
  induction ss with
  | nil => intro _; rfl
  | cons s ss' ih =>
    intro hss
    cases ss' with
    | nil => simp [joinSlash, occursIn_no_slash (hss s (by simp))]
    | cons s₂ ss'' =>
      have hs : '/' ∉ s := hss s (by simp)
      rw [show joinSlash (s :: s₂ :: ss'') = s ++ '/' :: joinSlash (s₂ :: ss'') from rfl,
        occursIn_seg_append s hs,
        ih (by intro x hx; exact hss x (by simp [hx]))]
      cases ss'' with
      | nil => simp [joinSlash]
      | cons s₃ ss₃ =>
        rw [show joinSlash (s₂ :: s₃ :: ss₃) = s₂ ++ '/' :: joinSlash (s₃ :: ss₃) from rfl,
          startsWith_no_slash_append t ht s₂ _]
        simp

theorem apphostingConnTest_imp_occursIn {name : String}
    (h : apphostingConnTest name = true) : occursIn connMarker name.data = true := by
  obtain ⟨i, _, hp⟩ := List.any_eq_true.mp h
  simp only [Bool.and_eq_true] at hp
  exact occursIn_of_startsWith_drop hp.1.1.2

theorem sentinelName_data (P L : String) :
    ("projects/" ++ P ++ "/locations/" ++ L ++
        "/connections/apphosting-github-oauth").data =
      joinSlash ["projects".data, P.data, "locations".data, L.data,
        "connections".data, "apphosting-github-oauth".data] := by
  have e1 : ("projects/" : String).data = "projects".data ++ ['/'] := rfl
  have e2 : ("/locations/" : String).data = '/' :: ("locations".data ++ ['/']) := rfl
  have e3 : ("/connections/apphosting-github-oauth" : String).data =
      '/' :: ("connections".data ++ '/' :: "apphosting-github-oauth".data) := rfl
  simp [String.data_append, e1, e2, e3, joinSlash]

theorem apphostingConnTest_sentinel_false (P L : String)
    (hP : '/' ∉ P.data) (hL : '/' ∉ L.data)
    (hP2 : listStartsWith "apphosting-github-conn-".data P.data = false)
    (hL2 : listStartsWith "apphosting-github-conn-".data L.data = false) :
    apphostingConnTest ("projects/" ++ P ++ "/locations/" ++ L ++
      "/connections/apphosting-github-oauth") = false := by
  cases h : apphostingConnTest ("projects/" ++ P ++ "/locations/" ++ L ++
      "/connections/apphosting-github-oauth") with
  | false => rfl
  | true =>
    exfalso
    have hocc := apphostingConnTest_imp_occursIn h
    rw [show connMarker = '/' :: "apphosting-github-conn-".data from rfl,
      sentinelName_data] at hocc
    rw [occursIn_joinSlash (by decide) _ ?seg] at hocc
    case seg =>
      intro x hx
      simp only [List.mem_cons, List.not_mem_nil, or_false] at hx
      rcases hx with rfl | rfl | rfl | rfl | rfl | rfl
      · decide
      · exact hP
      · decide
      · exact hL
      · decide
      · decide
    simp only [List.tail_cons, List.any_cons, List.any_nil, hP2, hL2,
      Bool.false_or, Bool.or_false] at hocc
    exact absurd hocc (by decide)

/-! ### Establishing the eligibility pattern for generated names -/

theorem apphostingConnTest_intro (name : String) (A : List Char) (c : Char)
    (suffix : List Char) (h : name.data = A ++ c :: (connMarker ++ suffix))
    (hc : jsDot c = true) (hne : suffix ≠ []) (hdot : suffix.all jsDot = true) :
    apphostingConnTest name = true := by
  have hempty : suffix.isEmpty = false := by
    cases suffix with
    | nil => exact absurd rfl hne
    | cons _ _ => rfl
  have hd1 : name.data.getD (A.length + 1 - 1) ' ' = c := by
    rw [h]; simpa using getD_append_length A c (connMarker ++ suffix) ' '
  have hd2 : name.data.drop (A.length + 1) = connMarker ++ suffix := by
    rw [h, show A ++ c :: (connMarker ++ suffix) = (A ++ [c]) ++ (connMarker ++ suffix) by
      simp, show A.length + 1 = (A ++ [c]).length by simp]
    exact List.drop_left _ _
  have hd3 : name.data.drop (A.length + 1 + connMarker.length) = suffix := by
    rw [h, show A ++ c :: (connMarker ++ suffix) = ((A ++ [c]) ++ connMarker) ++ suffix by
      simp,
      show A.length + 1 + connMarker.length = ((A ++ [c]) ++ connMarker).length by
        simp; omega]
    exact List.drop_left _ _
  unfold apphostingConnTest
  apply any_range_of (i := A.length + 1)
  · rw [h]
    simp [connMarker]
  · simp only [Bool.and_eq_true]
    refine ⟨⟨⟨⟨?_, ?_⟩, ?_⟩, ?_⟩, ?_⟩
    · simp
    · rw [hd1]; exact hc
    · rw [hd2]; exact listStartsWith_refl_append _ _
    · rw [hd3, hempty]; rfl
    · rw [hd3]; exact hdot

/-- C10 (amended): the generated id always extends the fixed marker
`apphosting-github-conn-` by the random suffix, and whenever the random
suffix is nonempty (and free of line terminators, as base-36 digit strings
are), the canonical connection name ending in the generated id passes
`apphostingConnTest`, for every project and location segment. The
amendment restricts the second part to nonempty suffixes: the suffix
`Math.random().toString(36).slice(6)` can be empty (for example when
`Math.random()` returns `0` or `0.5`, whose base-36 renderings have at
most 6 characters), and the empty suffix produces an id whose canonical
name fails the pattern (see the counterexample). -/
theorem claim_C10 (randomHash P L : String) :
    (∃ t, generateConnectionId randomHash = "apphosting-github-conn-" ++ t) ∧
    (randomHash.data ≠ [] → randomHash.data.all jsDot = true →
      apphostingConnTest ("projects/" ++ P ++ "/locations/" ++ L ++ "/connections/" ++
        generateConnectionId randomHash) = true) := by
  refine ⟨⟨randomHash, rfl⟩, fun hne hdot => ?_⟩
  have e0 : ("/connections/" : String).data ++ "apphosting-github-conn-".data =
      "/connection".data ++ 's' :: connMarker := by decide
  have e1 : ∀ X : List Char,
      ("/connections/" : String).data ++ ("apphosting-github-conn-".data ++ X) =
        "/connection".data ++ 's' :: (connMarker ++ X) := by
    intro X
    rw [← List.append_assoc, e0]
    simp
  apply apphostingConnTest_intro _
    ("projects/".data ++ P.data ++ "/locations/".data ++ L.data ++ "/connection".data)
    's' randomHash.data _ (by decide) hne hdot
  simp only [generateConnectionId, String.data_append, List.append_assoc]
  rw [e1]

/-- C10 counterexample: the random suffix can be the empty string (for
example `Math.random()` returning `0` renders as `"0"`, whose `slice(6)`
is empty), in which case the generated id is the bare marker and the
canonical name ending in it does not match `APPHOSTING_CONN_PATTERN`
(which requires at least one character after the marker). -/
theorem claim_C10_cex :
    generateConnectionId "" = "apphosting-github-conn-" ∧
    apphostingConnTest ("projects/p/locations/l/connections/" ++
      generateConnectionId "") = false :=
  ⟨rfl, by decide⟩

/-- C10 witness: a concrete nonempty base-36 suffix produces an id whose
canonical name passes the eligibility pattern. -/
theorem claim_C10_witness :
    ("abc123" : String).data ≠ [] ∧ ("abc123" : String).data.all jsDot = true ∧
    apphostingConnTest ("projects/p/locations/l/connections/" ++
      generateConnectionId "abc123") = true :=
  ⟨by decide, by decide, (claim_C10 "abc123" "p" "l").2 (by decide) (by decide)⟩

/-! ### Claim C6: eligibility filter -/

/-- Concrete connection whose project segment itself starts with the
generated-id marker while its connection id is the sentinel OAuth id. -/
def sentinelLookalike : Connection :=
  ⟨"projects/apphosting-github-conn-x/locations/l/connections/apphosting-github-oauth",
   ⟨"COMPLETE", ""⟩, false, none⟩

/-- Concrete sentinel OAuth connection under an ordinary project. -/
def sentinelOrdinary : Connection :=
  ⟨"projects/my-proj/locations/us-central1/connections/apphosting-github-oauth",
   ⟨"COMPLETE", ""⟩, false, none⟩

/-- C6 (amended): `listAppHostingConnections` keeps exactly the listed
connections whose name passes `APPHOSTING_CONN_PATTERN`, whose stage is
`COMPLETE` and which are not disabled, and membership is invariant under
permutations of the input. A connection whose canonical name ends in the
sentinel id `apphosting-github-oauth` is excluded provided neither its
project segment nor its location segment starts with
`apphosting-github-conn-`; the amendment adds this proviso because the
pattern is unanchored on the left, so a sentinel-id connection under a
project (or location) segment starting with the generated-id marker does
pass the filter (see the counterexample). -/
theorem claim_C6 (conns : List Connection) :
    (∀ conn, conn ∈ listAppHostingConnections conns ↔
      conn ∈ conns ∧ apphostingConnTest conn.name = true ∧
        conn.installationState.stage = "COMPLETE" ∧ conn.disabled = false) ∧
    (∀ conns', List.Perm conns conns' →
      ∀ conn, conn ∈ listAppHostingConnections conns ↔
        conn ∈ listAppHostingConnections conns') ∧
    (∀ (P L : String), '/' ∉ P.data → '/' ∉ L.data →
      listStartsWith "apphosting-github-conn-".data P.data = false →
      listStartsWith "apphosting-github-conn-".data L.data = false →
      ∀ conn ∈ conns,
        conn.name = "projects/" ++ P ++ "/locations/" ++ L ++
          "/connections/apphosting-github-oauth" →
        conn ∉ listAppHostingConnections conns) := by
  have hmem : ∀ (cs : List Connection) (conn : Connection),
      conn ∈ listAppHostingConnections cs ↔
        conn ∈ cs ∧ apphostingConnTest conn.name = true ∧
          conn.installationState.stage = "COMPLETE" ∧ conn.disabled = false := by
    intro cs conn
    simp [listAppHostingConnections, List.mem_filter, Bool.and_eq_true, and_assoc]
  refine ⟨hmem conns, ?_, ?_⟩
  · intro conns' hperm conn
    rw [hmem conns, hmem conns', hperm.mem_iff]
  · intro P L hP hL hP2 hL2 conn _ hname hin
    have htest := ((hmem conns conn).mp hin).2.1
    rw [hname, apphostingConnTest_sentinel_false P L hP hL hP2 hL2] at htest
    exact Bool.false_ne_true htest

/-- C6 counterexample: a connection whose id is the sentinel
`apphosting-github-oauth` but whose project segment starts with
`apphosting-github-conn-` passes the filter (stage `COMPLETE`, not
disabled), so the sentinel OAuth connection is not unconditionally
excluded from the result. -/
theorem claim_C6_cex :
    sentinelLookalike ∈ listAppHostingConnections [sentinelLookalike] ∧
    parseConnectionName sentinelLookalike.name =
      some ⟨"apphosting-github-conn-x", "l", "apphosting-github-oauth"⟩ := by
  constructor
  · decide
  · decide

/-- C6 witness: under an ordinary project and location, the sentinel OAuth
connection is excluded, by the amended theorem at concrete inputs. -/
theorem claim_C6_witness :
    sentinelOrdinary ∉ listAppHostingConnections [sentinelOrdinary] :=
  (claim_C6 [sentinelOrdinary]).2.2 "my-proj" "us-central1"
    (by decide) (by decide) (by decide) (by decide)
    sentinelOrdinary (by simp) rfl

/-! ### Concrete fixtures for the provisioning claims -/

/-- Error with HTTP status 404, as thrown by a failed fetch. -/
def err404 : DCError := ⟨some 404, "not found"⟩

/-- Error with a non-404 HTTP status. -/
def err500 : DCError := ⟨some 500, "internal error"⟩

/-- Error placeholder for responses a scenario never consumes. -/
def errUnused : DCError := ⟨none, "unused"⟩

/-- Operation handle returned by the connection create call. -/
def opConnC1 : Operation := ⟨"operations/op-conn"⟩

/-- Operation handle returned by the repository-link create call. -/
def opRepoC1 : Operation := ⟨"operations/op-repo"⟩

/-- Connection still pending user OAuth, as resolved by the poller. -/
def connPendingOauth : Connection :=
  ⟨"projects/p/locations/us-central1/connections/apphosting-us-central1",
   ⟨"PENDING_USER_OAUTH", "https://example.com/action"⟩, false, none⟩

/-- Repository link resolved by the poller. -/
def repoLinkC1 : GitRepositoryLink :=
  ⟨"projects/p/locations/us-central1/connections/c/gitRepositoryLinks/user-repo",
   "https://github.com/user/repo.git"⟩

/-- Environment where every fetch fails with 404 and creates succeed. -/
def envC1 : Env :=
  { getConnection := fun _ _ _ => .error err404
    createConnection := fun _ _ _ _ => .ok opConnC1
    pollConnection := fun _ => .ok connPendingOauth
    getGitRepositoryLink := fun _ _ _ _ => .error err404
    createGitRepositoryLink := fun _ _ _ _ _ => .ok opRepoC1
    pollRepoLink := fun _ => .ok repoLinkC1
    listAllLinkableGitRepositories := fun _ _ _ => [] }

/-- Environment where every fetch fails with a non-404 error. -/
def envC5 : Env :=
  { getConnection := fun _ _ _ => .error err500
    createConnection := fun _ _ _ _ => .error errUnused
    pollConnection := fun _ => .error errUnused
    getGitRepositoryLink := fun _ _ _ _ => .error err500
    createGitRepositoryLink := fun _ _ _ _ _ => .error errUnused
    pollRepoLink := fun _ => .error errUnused
    listAllLinkableGitRepositories := fun _ _ _ => [] }

/-- Environment whose connection fetch succeeds with the ordinary sentinel
connection; all other calls are unused. -/
def envStatic : Env :=
  { getConnection := fun _ _ _ => .ok sentinelOrdinary
    createConnection := fun _ _ _ _ => .error errUnused
    pollConnection := fun _ => .error errUnused
    getGitRepositoryLink := fun _ _ _ _ => .error errUnused
    createGitRepositoryLink := fun _ _ _ _ _ => .error errUnused
    pollRepoLink := fun _ => .error errUnused
    listAllLinkableGitRepositories := fun _ _ _ => [] }

/-! ### Claim C1: get-or-create behavior on found and 404 fetches -/

/-- C1: for both `getOrCreateConnection` and `getOrCreateRepository`, a
fetch failing with status 404 leads to exactly one create call followed by
exactly one poll of the returned operation, and the polled resource is
returned as-is (in particular a connection still in `PENDING_USER_OAUTH`
is returned without entering any OAuth-completion loop — the recorded
call trace contains no browser or prompt event); a successful fetch leads
to no create call and the fetched resource is returned unchanged. -/
theorem claim_C1 (env : Env)
    (projectId location connectionId cloneUri repositoryId : String)
    (cfg : Option GitHubConfig) (e : DCError) (op : Operation) (conn : Connection)
    (repo : GitRepositoryLink) :
    (env.getConnection projectId location connectionId = .error e → e.status = some 404 →
      env.createConnection projectId location connectionId cfg = .ok op →
      env.pollConnection op.name = .ok conn →
      getOrCreateConnection env projectId location connectionId cfg =
        (.ok conn, [.getConn projectId location connectionId,
          .createConn projectId location connectionId cfg, .pollOp op.name])) ∧
    (env.getConnection projectId location connectionId = .ok conn →
      getOrCreateConnection env projectId location connectionId cfg =
        (.ok conn, [.getConn projectId location connectionId])) ∧
    (generateRepositoryId cloneUri = some repositoryId →
      env.getGitRepositoryLink projectId location connectionId repositoryId = .error e →
      e.status = some 404 →
      env.createGitRepositoryLink projectId location connectionId repositoryId cloneUri =
        .ok op →
      env.pollRepoLink op.name = .ok repo →
      getOrCreateRepository env projectId location connectionId cloneUri =
        (.ok repo, [.getRepoLink projectId location connectionId repositoryId,
          .createRepoLink projectId location connectionId repositoryId cloneUri,
          .pollOp op.name])) ∧
    (generateRepositoryId cloneUri = some repositoryId →
      env.getGitRepositoryLink projectId location connectionId repositoryId = .ok repo →
      getOrCreateRepository env projectId location connectionId cloneUri =
        (.ok repo, [.getRepoLink projectId location connectionId repositoryId])) := by
  refine ⟨?_, ?_, ?_, ?_⟩
  · intro h1 h2 h3 h4
    simp [getOrCreateConnection, createConnection, h1, h2, h3, h4]
  · intro h1
    simp [getOrCreateConnection, h1]
  · intro h0 h1 h2 h3 h4
    simp [getOrCreateRepository, h0, h1, h2, h3, h4]
  · intro h0 h1
    simp [getOrCreateRepository, h0, h1]

/-- C1 witness: in an environment whose fetches fail with 404 and whose
poll resolves to a connection still in `PENDING_USER_OAUTH`, get-or-create
returns the pending connection after one create and one poll, and a
repository link is likewise created, polled and returned. -/
theorem claim_C1_witness :
    err404.status = some 404 ∧
    connPendingOauth.installationState.stage = "PENDING_USER_OAUTH" ∧
    getOrCreateConnection envC1 "p" "us-central1" "apphosting-us-central1" none =
      (.ok connPendingOauth,
       [.getConn "p" "us-central1" "apphosting-us-central1",
        .createConn "p" "us-central1" "apphosting-us-central1" none,
        .pollOp "operations/op-conn"]) ∧
    getOrCreateRepository envC1 "p" "us-central1" "c" "https://github.com/user/repo.git" =
      (.ok repoLinkC1,
       [.getRepoLink "p" "us-central1" "c" "user-repo",
        .createRepoLink "p" "us-central1" "c" "user-repo" "https://github.com/user/repo.git",
        .pollOp "operations/op-repo"]) :=
  ⟨rfl, rfl,
   (claim_C1 envC1 "p" "us-central1" "apphosting-us-central1" "x" "x" none err404
      opConnC1 connPendingOauth repoLinkC1).1 rfl rfl rfl rfl,
   (claim_C1 envC1 "p" "us-central1" "c" "https://github.com/user/repo.git" "user-repo"
      none err404 opRepoC1 connPendingOauth repoLinkC1).2.2.1 (by decide) rfl rfl rfl rfl⟩

/-! ### Claim C5: non-404 fetch errors propagate unchanged -/

/-- C5: a fetch error whose status is not 404 is re-thrown by
`getOrCreateConnection` and `getOrCreateRepository` as the very same error
value, and the recorded trace shows no create call and no poll in that
case; the status-404 error is the only one that triggers
create-on-demand. -/
theorem claim_C5 (env : Env)
    (projectId location connectionId cloneUri repositoryId : String)
    (cfg : Option GitHubConfig) (e : DCError) :
    (env.getConnection projectId location connectionId = .error e →
      e.status ≠ some 404 →
      getOrCreateConnection env projectId location connectionId cfg =
        (.error e, [.getConn projectId location connectionId])) ∧
    (generateRepositoryId cloneUri = some repositoryId →
      env.getGitRepositoryLink projectId location connectionId repositoryId = .error e →
      e.status ≠ some 404 →
      getOrCreateRepository env projectId location connectionId cloneUri =
        (.error e, [.getRepoLink projectId location connectionId repositoryId])) := by
  constructor
  · intro h1 h2
    simp [getOrCreateConnection, h1, h2]
  · intro h0 h1 h2
    simp [getOrCreateRepository, h0, h1, h2]

/-- C5 witness: a status-500 fetch error is returned unchanged by both
provisioners, with a one-event trace. -/
theorem claim_C5_witness :
    err500.status ≠ some 404 ∧
    getOrCreateConnection envC5 "p" "l" "c" none =
      (.error err500, [.getConn "p" "l" "c"]) ∧
    getOrCreateRepository envC5 "p" "l" "c" "https://github.com/user/repo.git" =
      (.error err500, [.getRepoLink "p" "l" "c" "user-repo"]) :=
  ⟨by decide,
   (claim_C5 envC5 "p" "l" "c" "x" "x" none err500).1 rfl (by decide),
   (claim_C5 envC5 "p" "l" "c" "https://github.com/user/repo.git" "user-repo" none
      err500).2 (by decide) rfl (by decide)⟩

/-! ### Claim C8: underivable clone URIs fail before any remote call -/

/-- C8: when no repository id is derivable from the clone URI,
`getOrCreateRepository` fails with the descriptive error naming the
offending URI and performs no remote call at all (empty trace); when a
repository id is derivable, the run always proceeds to the fetch (its
first recorded event is the repository-link fetch), so the derivation
error is never raised. -/
theorem claim_C8 (env : Env)
    (projectId location connectionId cloneUri repositoryId : String) :
    (generateRepositoryId cloneUri = none →
      getOrCreateRepository env projectId location connectionId cloneUri =
        (.error ⟨none, "Failed to generate repositoryId for URI \"" ++ cloneUri ++ "\"."⟩,
         [])) ∧
    (generateRepositoryId cloneUri = some repositoryId →
      (getOrCreateRepository env projectId location connectionId cloneUri).2.head? =
        some (.getRepoLink projectId location connectionId repositoryId)) := by
  constructor
  · intro h
    simp [getOrCreateRepository, h]
  · intro h
    simp only [getOrCreateRepository, h]
    cases henv : env.getGitRepositoryLink projectId location connectionId repositoryId with
    | ok repo => rfl
    | error e =>
      by_cases h404 : e.status = some 404
      · simp only [h404, if_pos rfl]
        cases hcr : env.createGitRepositoryLink projectId location connectionId
            repositoryId cloneUri with
        | error e2 => rfl
        | ok op => rfl
      · simp only [if_neg h404]
        rfl

/-- C8 witness: a non-GitHub clone URI yields the descriptive failure with
no remote call, and a derivable clone URI proceeds straight to the
fetch. -/
theorem claim_C8_witness :
    generateRepositoryId "https://example.com/user/repo.git" = none ∧
    getOrCreateRepository envStatic "p" "l" "c" "https://example.com/user/repo.git" =
      (.error ⟨none, "Failed to generate repositoryId for URI \"" ++
        "https://example.com/user/repo.git" ++ "\"."⟩, []) ∧
    (getOrCreateRepository envC1 "p" "l" "c" "https://github.com/user/repo.git").2.head? =
      some (.getRepoLink "p" "l" "c" "user-repo") :=
  ⟨by decide,
   (claim_C8 envStatic "p" "l" "c" "https://example.com/user/repo.git" "x").1 (by decide),
   (claim_C8 envC1 "p" "l" "c" "https://github.com/user/repo.git" "user-repo").2
     (by decide)⟩

/-! ### Claim C3: the app-installation wait checks at most once -/

theorem replaceFirst_append (pat rep : List Char) (hpat : pat ≠ []) :
    ∀ (a b : List Char),
      (∀ i, i < a.length → listStartsWith pat ((a ++ pat ++ b).drop i) = false) →
      replaceFirstChars pat rep (a ++ pat ++ b) = a ++ rep ++ b := by
  intro a
  induction a with
  | nil =>
    intro b _
    cases pat with
    | nil => exact absurd rfl hpat
    | cons q qs =>
      simp only [List.nil_append, List.cons_append, replaceFirstChars]
      rw [if_pos (by simpa using listStartsWith_refl_append (q :: qs) b)]
      congr 1
      simp [List.append_eq]
  | cons c a' ih =>
    intro b hyp
    have h0 : listStartsWith pat (c :: (a' ++ pat ++ b)) = false := by
      simpa using hyp 0 (by simp)
    simp only [List.cons_append, replaceFirstChars, List.append_eq, h0,
      Bool.false_eq_true, if_false]
    congr 1
    apply ih
    intro i hi
    simpa using hyp (i + 1) (by simpa using Nat.succ_lt_succ hi)

/-- Connection with a non-COMPLETE installation state and an
`install_v2` action URI. -/
def connHalfInstalled : Connection :=
  ⟨"projects/p/locations/l/connections/c1",
   ⟨"PENDING_INSTALL_APP", "https://example.com/install_v2?x=1"⟩, false, none⟩

/-- C3: on a non-COMPLETE input connection, `ensureFullyInstalledConnection`
opens the action URI rewritten to the direct-install variant (first
occurrence of `install_v2` replaced by `direct_install_v2`), prompts once,
performs exactly one re-fetch and returns whatever that fetch produced,
regardless of its stage (the trace shows exactly one `getConn` and no
second iteration); on a COMPLETE input it returns the input unchanged and
performs no call and no prompt. -/
theorem claim_C3 (env : Env) (projectId location connectionId : String)
    (conn : Connection) (a b : String) :
    (conn.installationState.stage ≠ "COMPLETE" →
      ensureFullyInstalledConnection env projectId location connectionId conn =
        (env.getConnection projectId location connectionId,
         [.openBrowser (jsReplaceFirst conn.installationState.actionUri
            "install_v2" "direct_install_v2"),
          .prompt, .getConn projectId location connectionId])) ∧
    (conn.installationState.stage = "COMPLETE" →
      ensureFullyInstalledConnection env projectId location connectionId conn =
        (.ok conn, [])) ∧
    ((∀ i, i < a.data.length →
        listStartsWith "install_v2".data
          ((a.data ++ "install_v2".data ++ b.data).drop i) = false) →
      jsReplaceFirst (a ++ "install_v2" ++ b) "install_v2" "direct_install_v2" =
        a ++ "direct_install_v2" ++ b) := by
  refine ⟨?_, ?_, ?_⟩
  · intro h
    simp [ensureFullyInstalledConnection, h]
  · intro h
    simp [ensureFullyInstalledConnection, h]
  · intro hyp
    apply String.ext
    show replaceFirstChars "install_v2".data "direct_install_v2".data
        (a ++ "install_v2" ++ b).data = (a ++ "direct_install_v2" ++ b).data
    rw [String.data_append, String.data_append, String.data_append, String.data_append]
    exact replaceFirst_append "install_v2".data "direct_install_v2".data (by decide)
      a.data b.data hyp

/-- C3 witness: a half-installed connection triggers exactly one rewritten
browser open, one prompt and one re-fetch whose result is returned, and
the URI rewrite maps `install_v2` to `direct_install_v2`. -/
theorem claim_C3_witness :
    connHalfInstalled.installationState.stage ≠ "COMPLETE" ∧
    ensureFullyInstalledConnection envStatic "p" "l" "c1" connHalfInstalled =
      (.ok sentinelOrdinary,
       [.openBrowser "https://example.com/direct_install_v2?x=1", .prompt,
        .getConn "p" "l" "c1"]) ∧
    jsReplaceFirst ("https://example.com/" ++ "install_v2" ++ "?x=1")
        "install_v2" "direct_install_v2" =
      "https://example.com/" ++ "direct_install_v2" ++ "?x=1" :=
  ⟨by decide,
   by
    rw [(claim_C3 envStatic "p" "l" "c1" connHalfInstalled "" "").1 (by decide)]
    rfl,
   (claim_C3 envStatic "p" "l" "c1" connHalfInstalled "https://example.com/"
      "?x=1").2.2 (by decide)⟩

/-! ### Claim C2: the OAuth sentinel installation loop -/

theorem oauthLoop_ok_stage
    (refetch : Nat → String → String → String → Except DCError Connection) :
    ∀ (fuel k : Nat) (conn r : Connection) (t : List CallEvent),
      oauthConnectionLoop refetch k fuel conn = some (.ok r, t) →
      r.installationState.stage ≠ "PENDING_USER_OAUTH" := by
  intro fuel
  induction fuel with
  | zero =>
    intro k conn r t h
    exact absurd h (by simp [oauthConnectionLoop])
  | succ fuel ih =>
    intro k conn r t h
    by_cases hst : conn.installationState.stage = "PENDING_USER_OAUTH"
    · cases hp : parseConnectionName conn.name with
      | none =>
        simp only [oauthConnectionLoop, if_pos hst, hp] at h
        simp at h
      | some parts =>
        cases hr : refetch k parts.projectId parts.location parts.id with
        | error e =>
          simp only [oauthConnectionLoop, if_pos hst, hp, hr] at h
          simp at h
        | ok conn' =>
          cases hl : oauthConnectionLoop refetch (k + 1) fuel conn' with
          | none =>
            simp only [oauthConnectionLoop, if_pos hst, hp, hr, hl] at h
            simp at h
          | some rt =>
            obtain ⟨r', t'⟩ := rt
            simp only [oauthConnectionLoop, if_pos hst, hp, hr, hl, Option.some.injEq,
              Prod.mk.injEq] at h
            obtain ⟨hr', _⟩ := h
            subst hr'
            exact ih (k + 1) conn' r t' hl
    · simp only [oauthConnectionLoop, if_neg hst, Option.some.injEq, Prod.mk.injEq] at h
      obtain ⟨hr', _⟩ := h
      cases hr'
      exact hst

/-- C2 (amended): the OAuth installation loop of
`getOrCreateOauthConnection` repeats — surface the `actionUri` in a
browser popup, await the human's continue signal, re-fetch the connection
by its parsed name — while the connection's `installationState.stage` is
`PENDING_USER_OAUTH`, and exits as soon as the stage is anything else;
consequently, every terminating run returns a connection whose stage is
not `PENDING_USER_OAUTH`. The amendment weakens the claim's exit condition:
the source tests `stage === "PENDING_USER_OAUTH"`, not
`stage !== "COMPLETE"`, so the returned connection need not be in stage
`COMPLETE` — any other stage (for example `PENDING_INSTALL_APP`) also
stops the loop (see the counterexample). -/
theorem claim_C2 :
    (∀ (env : Env) (refetch : Nat → String → String → String → Except DCError Connection)
       (fuel : Nat) (projectId location : String) (r : Connection) (t : List CallEvent),
      getOrCreateOauthConnection env refetch fuel projectId location = some (.ok r, t) →
      r.installationState.stage ≠ "PENDING_USER_OAUTH") ∧
    (∀ (refetch : Nat → String → String → String → Except DCError Connection)
       (k fuel : Nat) (conn : Connection),
      conn.installationState.stage ≠ "PENDING_USER_OAUTH" →
      oauthConnectionLoop refetch k (fuel + 1) conn = some (.ok conn, [])) ∧
    (∀ (refetch : Nat → String → String → String → Except DCError Connection)
       (k fuel : Nat) (conn : Connection) (parts : ConnectionNameParts)
       (conn' : Connection),
      conn.installationState.stage = "PENDING_USER_OAUTH" →
      parseConnectionName conn.name = some parts →
      refetch k parts.projectId parts.location parts.id = .ok conn' →
      oauthConnectionLoop refetch k (fuel + 1) conn =
        (oauthConnectionLoop refetch (k + 1) fuel conn').map fun rt =>
          (rt.1, .openBrowserPopup conn.installationState.actionUri :: .prompt ::
            .getConn parts.projectId parts.location parts.id :: rt.2)) := by
  refine ⟨?_, ?_, ?_⟩
  · intro env refetch fuel projectId location r t h
    rcases hG : getOrCreateConnection env projectId location apphostingOauthConnName none
      with ⟨res, trace⟩
    unfold getOrCreateOauthConnection at h
    rw [hG] at h
    dsimp only at h
    cases res with
    | error e => simp at h
    | ok conn =>
      dsimp only at h
      cases hl : oauthConnectionLoop refetch 0 fuel conn with
      | none => rw [hl] at h; simp at h
      | some rt =>
        obtain ⟨r', t'⟩ := rt
        rw [hl] at h
        simp only [Option.some.injEq, Prod.mk.injEq] at h
        obtain ⟨hr', _⟩ := h
        subst hr'
        exact oauthLoop_ok_stage refetch fuel 0 conn r t' hl
  · intro refetch k fuel conn hst
    simp [oauthConnectionLoop, hst]
  · intro refetch k fuel conn parts conn' h1 h2 h3
    simp only [oauthConnectionLoop, if_pos h1, h2, h3]
    cases hl : oauthConnectionLoop refetch (k + 1) fuel conn' with
    | none => rfl
    | some rt => obtain ⟨r', t'⟩ := rt; rfl

/-- Sentinel-named connection whose installation is pending app install
(a stage that is neither `PENDING_USER_OAUTH` nor `COMPLETE`). -/
def connInstallPendingOauthName : Connection :=
  ⟨"projects/p/locations/l/connections/apphosting-github-oauth",
   ⟨"PENDING_INSTALL_APP", "https://example.com/a"⟩, false, none⟩

/-- Sentinel-named connection in stage `COMPLETE`. -/
def connCompleteOauth : Connection :=
  ⟨"projects/p/locations/l/connections/apphosting-github-oauth",
   ⟨"COMPLETE", ""⟩, false, none⟩

/-- Refetch oracle for scenarios that never re-fetch. -/
def refetchUnused : Nat → String → String → String → Except DCError Connection :=
  fun _ _ _ _ => .error errUnused

/-- Environment whose connection fetch returns the pending-install
sentinel connection. -/
def envOauthPendingInstall : Env :=
  { getConnection := fun _ _ _ => .ok connInstallPendingOauthName
    createConnection := fun _ _ _ _ => .error errUnused
    pollConnection := fun _ => .error errUnused
    getGitRepositoryLink := fun _ _ _ _ => .error errUnused
    createGitRepositoryLink := fun _ _ _ _ _ => .error errUnused
    pollRepoLink := fun _ => .error errUnused
    listAllLinkableGitRepositories := fun _ _ _ => [] }

/-- Environment whose connection fetch returns the complete sentinel
connection. -/
def envOauthComplete : Env :=
  { getConnection := fun _ _ _ => .ok connCompleteOauth
    createConnection := fun _ _ _ _ => .error errUnused
    pollConnection := fun _ => .error errUnused
    getGitRepositoryLink := fun _ _ _ _ => .error errUnused
    createGitRepositoryLink := fun _ _ _ _ _ => .error errUnused
    pollRepoLink := fun _ => .error errUnused
    listAllLinkableGitRepositories := fun _ _ _ => [] }

/-- C2 counterexample: a terminating run of `getOrCreateOauthConnection`
that returns a connection whose stage is `PENDING_INSTALL_APP`, not
`COMPLETE` — the loop exits on any stage other than `PENDING_USER_OAUTH`,
so the claim "for every run that terminates, the returned connection has
stage COMPLETE" is false. -/
theorem claim_C2_cex :
    getOrCreateOauthConnection envOauthPendingInstall refetchUnused 1 "p" "l" =
      some (.ok connInstallPendingOauthName, [.getConn "p" "l" "apphosting-github-oauth"]) ∧
    connInstallPendingOauthName.installationState.stage ≠ "COMPLETE" :=
  ⟨rfl, by decide⟩

/-- C2 witness: a terminating run at concrete inputs returns a connection
whose stage is not `PENDING_USER_OAUTH`, via the amended theorem. -/
theorem claim_C2_witness :
    getOrCreateOauthConnection envOauthComplete refetchUnused 1 "p" "l" =
      some (.ok connCompleteOauth, [.getConn "p" "l" "apphosting-github-oauth"]) ∧
    connCompleteOauth.installationState.stage ≠ "PENDING_USER_OAUTH" :=
  ⟨rfl, claim_C2.1 envOauthComplete refetchUnused 1 "p" "l" connCompleteOauth
    [.getConn "p" "l" "apphosting-github-oauth"] rfl⟩

/-! ### Claim C4: repository discovery aggregation -/

theorem bool_eq_false_of_ne_true {b : Bool} (h : ¬b = true) : b = false := by
  cases b
  · rfl
  · exact absurd rfl h

theorem objGet_cons (p : String × Connection) (rest : List (String × Connection))
    (u : String) :
    objGet (p :: rest) u = if p.1 = u then some p.2 else objGet rest u := by
  by_cases h : p.1 = u
  · rw [objGet, List.find?_cons_of_pos _ (by simp [h]), if_pos h]
    rfl
  · rw [objGet, List.find?_cons_of_neg _ (by simp [h]), if_neg h]
    rfl

theorem objGet_map_set_ne (m : List (String × Connection)) (k : String) (v : Connection)
    (u : String) (h : u ≠ k) :
    objGet (m.map fun p => if p.1 == k then (k, v) else p) u = objGet m u := by
  induction m with
  | nil => rfl
  | cons p rest ih =>
    simp only [List.map_cons]
    by_cases hp : p.1 = k
    · rw [show (if (p.1 == k) = true then (k, v) else p) = (k, v) by simp [hp],
        objGet_cons, objGet_cons,
        if_neg (show ¬k = u from fun he => h he.symm),
        if_neg (show ¬p.1 = u from hp ▸ fun he => h he.symm)]
      exact ih
    · rw [show (if (p.1 == k) = true then (k, v) else p) = p by simp [hp],
        objGet_cons, objGet_cons]
      by_cases hu : p.1 = u
      · rw [if_pos hu, if_pos hu]
      · rw [if_neg hu, if_neg hu]
        exact ih

theorem objGet_map_set_eq (m : List (String × Connection)) (k : String) (v : Connection) :
    objGet (m.map fun p => if p.1 == k then (k, v) else p) k =
      if m.any (fun q => q.1 == k) then some v else none := by
  induction m with
  | nil => rfl
  | cons p rest ih =>
    simp only [List.map_cons, List.any_cons]
    by_cases hp : p.1 = k
    · rw [show (if (p.1 == k) = true then (k, v) else p) = (k, v) by simp [hp],
        objGet_cons, if_pos rfl]
      simp [hp]
    · rw [show (if (p.1 == k) = true then (k, v) else p) = p by simp [hp],
        objGet_cons, if_neg hp, ih]
      have h2 : (p.1 == k) = false := by simp [hp]
      simp only [h2, Bool.false_or]

theorem objGet_append_single (k : String) (v : Connection) (u : String) :
    ∀ (m : List (String × Connection)), m.any (fun q => q.1 == k) = false →
      objGet (m ++ [(k, v)]) u = if u = k then some v else objGet m u := by
  intro m
  induction m with
  | nil =>
    intro _
    simp only [List.nil_append]
    rw [objGet_cons]
    by_cases h : u = k
    · rw [if_pos (show (k, v).1 = u from h.symm), if_pos h]
    · rw [if_neg (show ¬(k, v).1 = u from fun he => h he.symm), if_neg h]
  | cons p rest ih =>
    intro hnot
    simp only [List.any_cons, Bool.or_eq_false_iff] at hnot
    obtain ⟨hpk, hrest⟩ := hnot
    simp only [List.cons_append]
    rw [objGet_cons, objGet_cons]
    by_cases hu : p.1 = u
    · have hne : ¬u = k := by
        intro he
        rw [hu, he] at hpk
        simp at hpk
      rw [if_pos hu, if_neg hne, if_pos hu]
    · rw [if_neg hu, ih hrest]
      by_cases huk : u = k
      · rw [if_pos huk, if_pos huk]
      · rw [if_neg huk, if_neg huk, if_neg hu]

theorem objGet_objSet (m : List (String × Connection)) (k : String) (v : Connection)
    (u : String) :
    objGet (objSet m k v) u = if u = k then some v else objGet m u := by
  by_cases hany : m.any (fun q => q.1 == k) = true
  · rw [objSet, if_pos hany]
    by_cases h : u = k
    · subst h
      rw [objGet_map_set_eq, if_pos hany, if_pos rfl]
    · rw [objGet_map_set_ne m k v u h, if_neg h]
  · have hany' := bool_eq_false_of_ne_true hany
    rw [objSet, if_neg hany]
    exact objGet_append_single k v u m hany'

theorem mem_keys_iff_any (m : List (String × Connection)) (u : String) :
    u ∈ m.map (fun p => p.1) ↔ m.any (fun q => q.1 == u) = true := by
  simp only [List.any_eq_true, List.mem_map, beq_iff_eq]

theorem mem_keys_objGet (m : List (String × Connection)) (u : String) :
    u ∈ m.map (fun p => p.1) ↔ (objGet m u).isSome = true := by
  induction m with
  | nil => simp [objGet]
  | cons p rest ih =>
    rw [objGet_cons]
    by_cases hp : p.1 = u
    · simp [hp]
    · rw [if_neg hp]
      simp only [List.map_cons, List.mem_cons]
      constructor
      · rintro (h | h)
        · exact absurd h.symm hp
        · exact ih.mp h
      · intro h
        exact Or.inr (ih.mpr h)

theorem keys_objSet (m : List (String × Connection)) (k : String) (v : Connection) :
    (objSet m k v).map (fun p => p.1) =
      if m.any (fun q => q.1 == k) then m.map (fun p => p.1)
      else m.map (fun p => p.1) ++ [k] := by
  by_cases hany : m.any (fun q => q.1 == k) = true
  · rw [objSet, if_pos hany, if_pos hany, List.map_map]
    apply List.map_congr_left
    intro p _
    by_cases hp : p.1 = k
    · simp [Function.comp, hp]
    · simp [Function.comp, hp]
  · rw [objSet, if_neg hany, if_neg hany]
    simp

theorem keys_nodup_objSet (m : List (String × Connection)) (k : String) (v : Connection)
    (h : (m.map (fun p => p.1)).Nodup) : ((objSet m k v).map (fun p => p.1)).Nodup := by
  rw [keys_objSet]
  by_cases hany : m.any (fun q => q.1 == k) = true
  · rw [if_pos hany]
    exact h
  · have hany' := bool_eq_false_of_ne_true hany
    have hk : k ∉ m.map (fun p => p.1) := by
      rw [mem_keys_iff_any, hany']
      exact Bool.false_ne_true
    rw [if_neg hany]
    simp [List.nodup_append, h, hk]

theorem objGet_foldl_set (conn : Connection) (repos : List GitRepositoryLink) :
    ∀ (m : List (String × Connection)) (u : String),
      objGet (repos.foldl (fun m repo => objSet m repo.cloneUri conn) m) u =
        if repos.any (fun r => r.cloneUri == u) then some conn else objGet m u := by
  induction repos with
  | nil => intro m u; simp
  | cons r rest ih =>
    intro m u
    simp only [List.foldl_cons, List.any_cons]
    rw [ih]
    by_cases hrest : rest.any (fun r => r.cloneUri == u) = true
    · simp [hrest]
    · have hrest' := bool_eq_false_of_ne_true hrest
      rw [if_neg hrest, objGet_objSet]
      by_cases hu : u = r.cloneUri
      · have hbeq : (r.cloneUri == u) = true := by simp [hu]
        rw [if_pos hu, if_pos (by rw [hbeq, Bool.true_or])]
      · have hbeq : (r.cloneUri == u) = false := by simp [Ne.symm hu]
        rw [if_neg hu, if_neg (by rw [hbeq, Bool.false_or, hrest']; exact Bool.false_ne_true)]

theorem keys_nodup_foldl_set (conn : Connection) (repos : List GitRepositoryLink) :
    ∀ (m : List (String × Connection)),
      (m.map (fun p => p.1)).Nodup →
      ((repos.foldl (fun m repo => objSet m repo.cloneUri conn) m).map
        (fun p => p.1)).Nodup := by
  induction repos with
  | nil => intro m h; simpa using h
  | cons r rest ih =>
    intro m h
    simp only [List.foldl_cons]
    exact ih _ (keys_nodup_objSet m r.cloneUri conn h)

theorem fetchGo_spec (env : Env) (projectId : String) :
    ∀ (conns : List Connection) (acc : List (String × Connection)),
      (∀ c ∈ conns, (parseConnectionName c.name).isSome) →
      ∃ m, fetchAllRepositoriesGo env projectId conns acc = .ok m ∧
        (∀ u, objGet m u =
          (conns.reverse.find? fun c => connListsUri env projectId c u).or (objGet acc u)) ∧
        (∀ u, u ∈ m.map (fun p => p.1) ↔
          ((∃ c ∈ conns, connListsUri env projectId c u = true) ∨
            u ∈ acc.map (fun p => p.1))) ∧
        ((acc.map (fun p => p.1)).Nodup → (m.map (fun p => p.1)).Nodup) := by
  intro conns
  induction conns with
  | nil =>
    intro acc _
    exact ⟨acc, rfl, by simp, by simp, fun h => h⟩
  | cons conn rest ih =>
    intro acc hall
    obtain ⟨parts, hparts⟩ :=
      Option.isSome_iff_exists.mp (hall conn (by simp))
    have hrest : ∀ c ∈ rest, (parseConnectionName c.name).isSome :=
      fun c hc2 => hall c (by simp [hc2])
    obtain ⟨m, hm, hobj, hkeys, hnd⟩ :=
      ih ((env.listAllLinkableGitRepositories projectId parts.location parts.id).foldl
        (fun m repo => objSet m repo.cloneUri conn) acc) hrest
    have hfc : ∀ u, connListsUri env projectId conn u =
        (env.listAllLinkableGitRepositories projectId parts.location parts.id).any
          (fun r => r.cloneUri == u) := by
      intro u
      simp [connListsUri, hparts]
    refine ⟨m, ?_, ?_, ?_, ?_⟩
    · simp only [fetchAllRepositoriesGo, hparts]
      exact hm
    · intro u
      rw [hobj u, show (conn :: rest).reverse = rest.reverse ++ [conn] by simp,
        List.find?_append, Option.or_assoc]
      congr 1
      rw [objGet_foldl_set]
      by_cases hany :
          (env.listAllLinkableGitRepositories projectId parts.location parts.id).any
            (fun r => r.cloneUri == u) = true
      · rw [if_pos hany,
          List.find?_cons_of_pos _ (by rw [hfc u]; exact hany)]
        rfl
      · have hany' := bool_eq_false_of_ne_true hany
        rw [if_neg hany,
          List.find?_cons_of_neg _ (by rw [hfc u, hany']; exact Bool.false_ne_true),
          List.find?_nil]
        rfl
    · intro u
      rw [hkeys u, mem_keys_objGet, objGet_foldl_set]
      by_cases hany :
          (env.listAllLinkableGitRepositories projectId parts.location parts.id).any
            (fun r => r.cloneUri == u) = true
      · rw [if_pos hany]
        constructor
        · intro _
          exact Or.inl ⟨conn, List.mem_cons_self conn rest, by rw [hfc u]; exact hany⟩
        · intro _
          exact Or.inr rfl
      · have hany' := bool_eq_false_of_ne_true hany
        rw [if_neg hany, ← mem_keys_objGet]
        constructor
        · rintro (⟨c, hc, hl⟩ | h)
          · exact Or.inl ⟨c, List.mem_cons_of_mem conn hc, hl⟩
          · exact Or.inr h
        · rintro (⟨c, hc, hl⟩ | h)
          · rcases List.mem_cons.mp hc with rfl | hc'
            · rw [hfc u] at hl
              rw [hany'] at hl
              exact absurd hl Bool.false_ne_true
            · exact Or.inl ⟨c, hc', hl⟩
          · exact Or.inr h
    · intro hnd0
      exact hnd (keys_nodup_foldl_set conn _ acc hnd0)

/-- C4: over connections whose names all parse, `fetchAllRepositories`
succeeds and returns the key list of the aggregated
clone-URI-to-connection object together with the object itself; the keys
are pairwise distinct, a clone URI is a key exactly when some input
connection lists it (so the number of clone URIs equals the number of
distinct clone URIs across all connections), and each key maps to
`lastConnectionListing` — the connection from the last input connection
(in input-list order) that listed a repository with that clone URI. -/
theorem claim_C4 (env : Env) (projectId : String) (connections : List Connection)
    (hall : ∀ c ∈ connections, (parseConnectionName c.name).isSome) :
    ∃ uris m, fetchAllRepositories env projectId connections = .ok (uris, m) ∧
      uris = m.map (fun p => p.1) ∧
      uris.Nodup ∧
      (∀ u, objGet m u = lastConnectionListing env projectId connections u) ∧
      (∀ u, u ∈ uris ↔ ∃ c ∈ connections, connListsUri env projectId c u = true) := by
  obtain ⟨m, hm, hobj, hkeys, hnd⟩ := fetchGo_spec env projectId connections [] hall
  refine ⟨m.map (fun p => p.1), m, ?_, rfl, ?_, ?_, ?_⟩
  · simp only [fetchAllRepositories, hm]
    rfl
  · exact hnd (by simp)
  · intro u
    rw [hobj u]
    simp [objGet, lastConnectionListing]
  · intro u
    rw [hkeys u]
    simp [objGet]

/-- First discovery connection, listing two repositories. -/
def connDiscA : Connection :=
  ⟨"projects/p/locations/l/connections/c1", ⟨"COMPLETE", ""⟩, false, none⟩

/-- Second discovery connection, listing an overlapping repository. -/
def connDiscB : Connection :=
  ⟨"projects/p/locations/l/connections/c2", ⟨"COMPLETE", ""⟩, false, none⟩

/-- Environment whose repository listing gives connections `c1` and `c2`
overlapping on one clone URI. -/
def envDisc : Env :=
  { getConnection := fun _ _ _ => .error errUnused
    createConnection := fun _ _ _ _ => .error errUnused
    pollConnection := fun _ => .error errUnused
    getGitRepositoryLink := fun _ _ _ _ => .error errUnused
    createGitRepositoryLink := fun _ _ _ _ _ => .error errUnused
    pollRepoLink := fun _ => .error errUnused
    listAllLinkableGitRepositories := fun _ _ id =>
      if id = "c1" then
        [⟨"r1", "https://github.com/u/r1.git"⟩, ⟨"r2", "https://github.com/u/r2.git"⟩]
      else if id = "c2" then
        [⟨"r2b", "https://github.com/u/r2.git"⟩, ⟨"r3", "https://github.com/u/r3.git"⟩]
      else [] }

/-- C4 witness: the aggregation theorem applied to two concrete
connections with an overlapping clone URI. -/
theorem claim_C4_witness :
    (∀ c ∈ [connDiscA, connDiscB], (parseConnectionName c.name).isSome) ∧
    ∃ uris m, fetchAllRepositories envDisc "p" [connDiscA, connDiscB] = .ok (uris, m) ∧
      uris = m.map (fun p => p.1) ∧
      uris.Nodup ∧
      (∀ u, objGet m u = lastConnectionListing envDisc "p" [connDiscA, connDiscB] u) ∧
      (∀ u, u ∈ uris ↔ ∃ c ∈ [connDiscA, connDiscB],
        connListsUri envDisc "p" c u = true) :=
  ⟨by decide, claim_C4 envDisc "p" [connDiscA, connDiscB] (by decide)⟩

/-! ### Claim C7: clone-URI slug extraction -/

theorem searchDown_eq_some (p : Nat → Bool) :
    ∀ (n k : Nat), 1 ≤ k → k ≤ n → p k = true →
      (∀ j, k < j → j ≤ n → p j = false) → searchDown p n = some k := by
  intro n
  induction n with
  | zero =>
    intro k h1 h2 _ _
    omega
  | succ n ih =>
    intro k h1 h2 hp hmax
    by_cases he : k = n + 1
    · subst he
      simp [searchDown, hp]
    · have hfalse : p (n + 1) = false := hmax (n + 1) (by omega) (Nat.le_refl _)
      simp only [searchDown, hfalse, Bool.false_eq_true, if_false]
      exact ih k h1 (by omega) hp (fun j hj1 hj2 => hmax j hj1 (by omega))

theorem searchFirst_eq_some (p : Nat → Bool) :
    ∀ (fuel start i : Nat), start ≤ i → i < start + fuel → p i = true →
      (∀ j, start ≤ j → j < i → p j = false) → searchFirst p start fuel = some i := by
  intro fuel
  induction fuel with
  | zero =>
    intro start i h1 h2 _ _
    omega
  | succ fuel ih =>
    intro start i h1 h2 hp hmin
    by_cases he : start = i
    · subst he
      simp [searchFirst, hp]
    · have hfalse : p start = false := hmin start (Nat.le_refl _) (by omega)
      simp only [searchFirst, hfalse, Bool.false_eq_true, if_false]
      exact ih (start + 1) i (by omega) (by omega) hp
        (fun j hj1 hj2 => hmin j (by omega) hj2)

theorem slug_extract_general (a mid : String) (hne : mid.data ≠ [])
    (hdot : mid.data.all jsDot = true)
    (hhead : ∀ j, j < a.data.length →
      slugHeadAt (a ++ "github.com/" ++ mid ++ ".git").data j = false) :
    extractRepoSlugFromUri (a ++ "github.com/" ++ mid ++ ".git") = some mid := by
  have h1 : 1 ≤ mid.data.length := List.length_pos.mpr hne
  have e1 : ("github.com/" : String).data = "github".data ++ '.' :: "com/".data := rfl
  have e2 : (".git" : String).data = '.' :: "git".data := rfl
  have hcs : (a ++ "github.com/" ++ mid ++ ".git").data =
      a.data ++ ("github.com/".data ++ (mid.data ++ ".git".data)) := by
    simp [String.data_append, List.append_assoc]
  have hlen : (a ++ "github.com/" ++ mid ++ ".git").data.length =
      a.data.length + 11 + mid.data.length + 4 := by
    rw [hcs]
    simp only [List.length_append, show ("github.com/".data).length = 11 from rfl,
      show ((".git" : String).data).length = 4 from rfl]
    omega
  have hdropA : (a ++ "github.com/" ++ mid ++ ".git").data.drop a.data.length =
      "github.com/".data ++ (mid.data ++ ".git".data) := by
    rw [hcs]
    exact List.drop_left _ _
  have hdrop7 : (a ++ "github.com/" ++ mid ++ ".git").data.drop (a.data.length + 7) =
      "com/".data ++ (mid.data ++ ".git".data) := by
    rw [hcs, e1,
      show a.data ++ (("github".data ++ '.' :: "com/".data) ++ (mid.data ++ ".git".data)) =
        (a.data ++ ("github".data ++ ['.'])) ++ ("com/".data ++ (mid.data ++ ".git".data))
        by simp [List.append_assoc],
      show a.data.length + 7 = (a.data ++ ("github".data ++ ['.'])).length by
        simp only [List.length_append, show ("github".data).length = 6 from rfl,
          List.length_cons, List.length_nil]]
    exact List.drop_left _ _
  have hdrop11 : (a ++ "github.com/" ++ mid ++ ".git").data.drop (a.data.length + 11) =
      mid.data ++ ".git".data := by
    rw [hcs,
      show a.data ++ ("github.com/".data ++ (mid.data ++ ".git".data)) =
        (a.data ++ "github.com/".data) ++ (mid.data ++ ".git".data) by
        simp [List.append_assoc],
      show a.data.length + 11 = (a.data ++ "github.com/".data).length by
        simp only [List.length_append, show ("github.com/".data).length = 11 from rfl]]
    exact List.drop_left _ _
  have hdropgit :
      (a ++ "github.com/" ++ mid ++ ".git").data.drop
        (a.data.length + 12 + mid.data.length) = "git".data := by
    rw [hcs, e2,
      show a.data ++ ("github.com/".data ++ (mid.data ++ '.' :: "git".data)) =
        (a.data ++ ("github.com/".data ++ (mid.data ++ ['.']))) ++ "git".data by
        simp [List.append_assoc],
      show a.data.length + 12 + mid.data.length =
        (a.data ++ ("github.com/".data ++ (mid.data ++ ['.']))).length by
        simp only [List.length_append, show ("github.com/".data).length = 11 from rfl,
          List.length_cons, List.length_nil]
        omega]
    exact List.drop_left _ _
  have hgetdot1 :
      (a ++ "github.com/" ++ mid ++ ".git").data.getD (a.data.length + 6) ' ' = '.' := by
    rw [hcs, e1,
      show a.data ++ (("github".data ++ '.' :: "com/".data) ++ (mid.data ++ ".git".data)) =
        (a.data ++ "github".data) ++ '.' :: ("com/".data ++ (mid.data ++ ".git".data)) by
        simp [List.append_assoc],
      show a.data.length + 6 = (a.data ++ "github".data).length by
        simp only [List.length_append, show ("github".data).length = 6 from rfl]]
    exact getD_append_length _ _ _ _
  have hgetdot2 :
      (a ++ "github.com/" ++ mid ++ ".git").data.getD
        (a.data.length + 11 + mid.data.length) ' ' = '.' := by
    rw [hcs, e2,
      show a.data ++ ("github.com/".data ++ (mid.data ++ '.' :: "git".data)) =
        (a.data ++ ("github.com/".data ++ mid.data)) ++ '.' :: "git".data by
        simp [List.append_assoc],
      show a.data.length + 11 + mid.data.length =
        (a.data ++ ("github.com/".data ++ mid.data)).length by
        simp only [List.length_append, show ("github.com/".data).length = 11 from rfl]
        omega]
    exact getD_append_length _ _ _ _
  have hsw1 : listStartsWith "github".data
      ((a ++ "github.com/" ++ mid ++ ".git").data.drop a.data.length) = true := by
    rw [hdropA, e1,
      show ("github".data ++ '.' :: "com/".data) ++ (mid.data ++ ".git".data) =
        "github".data ++ ('.' :: "com/".data ++ (mid.data ++ ".git".data)) by
        simp [List.append_assoc]]
    exact listStartsWith_refl_append _ _
  have hheadi : slugHeadAt (a ++ "github.com/" ++ mid ++ ".git").data a.data.length = true := by
    simp only [slugHeadAt, litAt, anyCharAt, Bool.and_eq_true]
    refine ⟨⟨⟨?_, ?_⟩, ?_, ?_⟩, ?_, ?_⟩
    · exact decide_eq_true (by rw [show ("github".data).length = 6 from rfl]; omega)
    · exact hsw1
    · exact decide_eq_true (by omega)
    · rw [hgetdot1]
      decide
    · exact decide_eq_true (by rw [show ("com/".data).length = 4 from rfl]; omega)
    · rw [hdrop7]
      exact listStartsWith_refl_append _ _
  have hcap : slugCaptureOk (a ++ "github.com/" ++ mid ++ ".git").data
      a.data.length mid.data.length = true := by
    simp only [slugCaptureOk, anyCharAt, litAt, Bool.and_eq_true]
    refine ⟨⟨⟨⟨?_, ?_⟩, ?_⟩, ?_, ?_⟩, ?_, ?_⟩
    · exact decide_eq_true h1
    · exact decide_eq_true (by omega)
    · rw [hdrop11, List.take_left]
      exact hdot
    · exact decide_eq_true (by omega)
    · rw [hgetdot2]
      decide
    · exact decide_eq_true (by rw [show ("git".data).length = 3 from rfl]; omega)
    · rw [show a.data.length + 12 + mid.data.length =
        a.data.length + 12 + mid.data.length from rfl, hdropgit]
      decide
  have hmax : ∀ j, mid.data.length < j →
      j ≤ (a ++ "github.com/" ++ mid ++ ".git").data.length →
      slugCaptureOk (a ++ "github.com/" ++ mid ++ ".git").data a.data.length j = false := by
    intro j hj1 hj2
    have hE : litAt (a ++ "github.com/" ++ mid ++ ".git").data
        (a.data.length + 12 + j) "git".data = false := by
      rw [litAt, decide_eq_false (by
        rw [show ("git".data).length = 3 from rfl]
        omega)]
      exact Bool.false_and _
    rw [slugCaptureOk, hE, Bool.and_false]
  have hbest : bestCapture (a ++ "github.com/" ++ mid ++ ".git").data a.data.length =
      some mid.data.length := by
    rw [bestCapture]
    exact searchDown_eq_some _ _ _ h1 (by omega) hcap hmax
  have hmatch : slugMatchAt (a ++ "github.com/" ++ mid ++ ".git").data a.data.length = true := by
    rw [slugMatchAt, hheadi, hbest]
    rfl
  have hfirst : searchFirst
      (fun i => slugMatchAt (a ++ "github.com/" ++ mid ++ ".git").data i) 0
      ((a ++ "github.com/" ++ mid ++ ".git").data.length + 1) = some a.data.length := by
    apply searchFirst_eq_some
    · exact Nat.zero_le _
    · omega
    · exact hmatch
    · intro j _ hj2
      rw [slugMatchAt, hhead j hj2]
      exact Bool.false_and _
  simp only [extractRepoSlugFromUri, hfirst, hbest, hdrop11, List.take_left]

/-- C7 (amended): `generateRepositoryId "https://github.com/user/repo.git"`
is `"user-repo"`, and in general `extractRepoSlugFromUri` implements the
leftmost, greedy match of the unanchored JS pattern
`github·com/(.+)·git` where `·` stands for any character (the dots of the
source regex are unescaped): for any prefix with no earlier head match and
any nonempty line-terminator-free slug, the input
`prefix ++ "github.com/" ++ slug ++ ".git"` yields exactly that slug, and
`generateRepositoryId` replaces every `/` of the slug by `-`. The
amendment drops the claim that all inputs without the
`.../owner/repo.git` clone-URL shape yield absent: because the dots match
any character and the match is unanchored, some inputs without that shape
also yield an id (see the counterexample). -/
theorem claim_C7 :
    generateRepositoryId "https://github.com/user/repo.git" = some "user-repo" ∧
    (∀ (a mid : String),
      mid.data ≠ [] →
      mid.data.all jsDot = true →
      (∀ j, j < a.data.length →
        slugHeadAt (a ++ "github.com/" ++ mid ++ ".git").data j = false) →
      extractRepoSlugFromUri (a ++ "github.com/" ++ mid ++ ".git") = some mid ∧
      generateRepositoryId (a ++ "github.com/" ++ mid ++ ".git") =
        some (String.mk (mid.data.map fun c => if c = '/' then '-' else c))) := by
  have main : ∀ (a mid : String),
      mid.data ≠ [] →
      mid.data.all jsDot = true →
      (∀ j, j < a.data.length →
        slugHeadAt (a ++ "github.com/" ++ mid ++ ".git").data j = false) →
      extractRepoSlugFromUri (a ++ "github.com/" ++ mid ++ ".git") = some mid ∧
      generateRepositoryId (a ++ "github.com/" ++ mid ++ ".git") =
        some (String.mk (mid.data.map fun c => if c = '/' then '-' else c)) := by
    intro a mid hne hdot hhead
    have hx := slug_extract_general a mid hne hdot hhead
    exact ⟨hx, by rw [generateRepositoryId, hx]; rfl⟩
  refine ⟨?_, main⟩
  have heq : ("https://" ++ "github.com/" ++ "user/repo" ++ ".git" : String) =
      "https://github.com/user/repo.git" := by decide
  have h := (main "https://" "user/repo" (by decide) (by decide) (by decide)).2
  rw [← heq, h]
  decide

/-- C7 counterexample: the input `"https://github.com/foo-git"` does not
have the `.../owner/repo.git` clone-URL shape (it does not even end in
`.git` — its reversed character list does not start with the reversal of
`.git`), yet `generateRepositoryId` returns `some "foo"`: the dot before
`git` in the source regex is unescaped and matches the `-`. -/
theorem claim_C7_cex :
    generateRepositoryId "https://github.com/foo-git" = some "foo" ∧
    listStartsWith ".git".data.reverse "https://github.com/foo-git".data.reverse = false := by
  constructor
  · decide
  · decide

/-- C7 witness: the general extraction theorem applied at a concrete
prefix and slug containing a slash. -/
theorem claim_C7_witness :
    ("x/y" : String).data ≠ [] ∧ ("x/y" : String).data.all jsDot = true ∧
    (∀ j, j < ("https://" : String).data.length →
      slugHeadAt ("https://" ++ "github.com/" ++ "x/y" ++ ".git").data j = false) ∧
    extractRepoSlugFromUri ("https://" ++ "github.com/" ++ "x/y" ++ ".git") =
      some "x/y" :=
  ⟨by decide, by decide, by decide,
   (claim_C7.2 "https://" "x/y" (by decide) (by decide) (by decide)).1⟩

end GithubConnections
